import Mathlib

set_option autoImplicit false

/-!
Shallow embedding of the log-watching and invite-dispatch logic of
`AutoInviteApp/logic.py` (classes `VRChatLogWatcher` and `VRChatLogic`).
Lines are modelled as `List Char`; the regular-expression searches of the
source are implemented directly as character-list scanners with the same
search order and greedy semantics.
-/

/-- Python `\s` on the ASCII range (space, tab, newline, carriage return,
vertical tab, form feed). -/
def isSpaceCh (c : Char) : Bool :=
  c = ' ' || c = '\t' || c = '\n' || c = '\r' || c = '\x0b' || c = '\x0c'

/-- Match a literal character sequence at the head of `cs`; on success return
the remainder of the input. -/
def litMatch : List Char → List Char → Option (List Char)
  | [], cs => some cs
  | _ :: _, [] => none
  | p :: ps, c :: cs => if c = p then litMatch ps cs else none

/-- Python `pat in line`: substring containment test. -/
def containsSub (pat : List Char) : List Char → Bool
  | [] => (litMatch pat []).isSome
  | c :: cs => (litMatch pat (c :: cs)).isSome || containsSub pat cs

/-- Read exactly `n` decimal digits, accumulating their value. -/
def readDigits (acc : Nat) : Nat → List Char → Option (Nat × List Char)
  | 0, cs => some (acc, cs)
  | _ + 1, [] => none
  | n + 1, c :: cs =>
    if c.isDigit then readDigits (acc * 10 + (c.toNat - 48)) n cs else none

/-- Expect one specific character. -/
def expectCh (ch : Char) : List Char → Option (List Char)
  | [] => none
  | c :: cs => if c = ch then some cs else none

/-- Raw fields captured by the timestamp regex
`(\d{4}\.\d{2}\.\d{2} \d{2}:\d{2}:\d{2})` of `logic.py`. -/
structure RawTs where
  y : Nat
  mo : Nat
  d : Nat
  h : Nat
  mi : Nat
  s : Nat
deriving DecidableEq, Repr

/-- Try to match the timestamp pattern at the head of the input. -/
def matchTsAt (cs : List Char) : Option RawTs := do
  let (y, r1) ← readDigits 0 4 cs
  let r2 ← expectCh '.' r1
  let (mo, r3) ← readDigits 0 2 r2
  let r4 ← expectCh '.' r3
  let (d, r5) ← readDigits 0 2 r4
  let r6 ← expectCh ' ' r5
  let (h, r7) ← readDigits 0 2 r6
  let r8 ← expectCh ':' r7
  let (mi, r9) ← readDigits 0 2 r8
  let r10 ← expectCh ':' r9
  let (s, _) ← readDigits 0 2 r10
  pure ⟨y, mo, d, h, mi, s⟩

/-- Python `re.search` for the timestamp pattern: first position (left to
right) at which the pattern matches. -/
def findTs : List Char → Option RawTs
  | [] => none
  | c :: cs =>
    match matchTsAt (c :: cs) with
    | some t => some t
    | none => findTs cs

/-- Gregorian leap-year rule used by Python `datetime`. -/
def isLeap (y : Nat) : Bool :=
  y % 4 = 0 && (y % 100 ≠ 0 || y % 400 = 0)

/-- Number of days in a month, as accepted by the `datetime` constructor. -/
def daysInMonth (y m : Nat) : Nat :=
  if m = 2 then (if isLeap y then 29 else 28)
  else if m = 4 || m = 6 || m = 9 || m = 11 then 30
  else 31

/-- Whether `datetime.strptime(s, '%Y.%m.%d %H:%M:%S')` succeeds on the
matched digits: field ranges accepted by the `datetime` constructor. -/
def RawTs.valid (t : RawTs) : Bool :=
  1 ≤ t.y && 1 ≤ t.mo && t.mo ≤ 12 && 1 ≤ t.d && t.d ≤ daysInMonth t.y t.mo &&
    t.h ≤ 23 && t.mi ≤ 59 && t.s ≤ 59

/-- Order-embedding key for timestamps: on range-valid timestamps it is
strictly monotone with respect to `datetime` ordering, which is
lexicographic on (year, month, day, hour, minute, second). -/
def RawTs.key (t : RawTs) : Nat :=
  ((((t.y * 13 + t.mo) * 32 + t.d) * 24 + t.h) * 60 + t.mi) * 60 + t.s

/-- Match `\s+(\S+)` (as in the instance-id patterns of `logic.py`): one or
more whitespace characters, then the greedy run of non-whitespace characters,
which is the captured group. -/
def matchWsTok (cs : List Char) : Option (List Char) :=
  let ws := cs.takeWhile isSpaceCh
  if ws.length = 0 then none
  else
    let rest := cs.drop ws.length
    let tok := rest.takeWhile (fun c => !isSpaceCh c)
    if tok.length = 0 then none else some tok

/-- Python `re.search` for a pattern of the shape `LIT\s+(\S+)`: try the whole
pattern at each position, left to right, and return the first capture. -/
def searchLitWsTok (pat : List Char) : List Char → Option (List Char)
  | [] =>
    match litMatch pat [] with
    | some rest => matchWsTok rest
    | none => none
  | c :: cs =>
    match litMatch pat (c :: cs) with
    | some rest =>
      match matchWsTok rest with
      | some tok => some tok
      | none => searchLitWsTok pat cs
    | none => searchLitWsTok pat cs

/-- Instance-id extraction: the four regex patterns of `logic.py`
(`instance_patterns`) tried in their listed order, first match wins.
The source additionally calls `.strip()` on the captured group, which is the
identity here because a `\S+` capture contains no whitespace. -/
def findInstanceId (cs : List Char) : Option (List Char) :=
  match searchLitWsTok "Joining or Creating Room:".data cs with
  | some iid => some iid
  | none =>
    match searchLitWsTok "Joining Room:".data cs with
    | some iid => some iid
    | none =>
      match searchLitWsTok "Room:".data cs with
      | some iid => some iid
      | none => searchLitWsTok "Joining".data cs

/-- Index of the last occurrence of `c` in the list, if any. -/
def lastIdxOf (c : Char) : List Char → Option Nat
  | [] => none
  | x :: xs =>
    match lastIdxOf c xs with
    | some j => some (j + 1)
    | none => if x = c then some 0 else none

/-- Greedy match of `(\S+)\)` against the non-whitespace run `run`: backtracking
yields the longest non-empty prefix of `run` that is immediately followed by a
closing parenthesis, i.e. the part of `run` before its last `)` (which must not
be the first character). -/
def lastCloseSplit (run : List Char) : Option (List Char) :=
  match lastIdxOf ')' run with
  | some j => if 1 ≤ j then some (run.take j) else none
  | none => none

/-- Match the tail `\s+(\S+)\s+\((\S+)\)` of the player patterns
`OnPlayerJoined\s+(\S+)\s+\((\S+)\)` / `OnPlayerLeft\s+...` right after the
literal, returning the captured (display name, player id). -/
def matchPlayerTail (cs : List Char) : Option (List Char × List Char) :=
  let ws1 := cs.takeWhile isSpaceCh
  if ws1.length = 0 then none
  else
    let r1 := cs.drop ws1.length
    let nm := r1.takeWhile (fun c => !isSpaceCh c)
    if nm.length = 0 then none
    else
      let r2 := r1.drop nm.length
      let ws2 := r2.takeWhile isSpaceCh
      if ws2.length = 0 then none
      else
        match r2.drop ws2.length with
        | '(' :: r4 =>
          match lastCloseSplit (r4.takeWhile (fun c => !isSpaceCh c)) with
          | some pid => some (nm, pid)
          | none => none
        | _ => none

/-- Python `re.search` for the player patterns: try `LIT` followed by
`matchPlayerTail` at each position, left to right. -/
def searchPlayerPat (lit : List Char) : List Char → Option (List Char × List Char)
  | [] => none
  | c :: cs =>
    match litMatch lit (c :: cs) with
    | some rest =>
      match matchPlayerTail rest with
      | some p => some p
      | none => searchPlayerPat lit cs
    | none => searchPlayerPat lit cs

/-- Per-player event history (`VRChatLogWatcher.player_events[player_id]`).
The `name` field is set when the record is created and not updated
afterwards, exactly as in `_process_log_line`. -/
structure PlayerRec where
  name : String
  joins : List RawTs
  leaves : List RawTs
deriving DecidableEq, Repr

/-- The watcher's mutable presence state: `current_instance` and the
insertion-ordered dictionary `player_events`. -/
structure WState where
  currentInstance : Option String
  playerEvents : List (String × PlayerRec)
deriving DecidableEq, Repr

/-- Fresh watcher state (`VRChatLogWatcher.__init__`). -/
def initialWState : WState := ⟨none, []⟩

/-- Python dict lookup on the insertion-ordered association list. -/
def lookupA : List (String × PlayerRec) → String → Option PlayerRec
  | [], _ => none
  | (k, v) :: rest, pid => if k = pid then some v else lookupA rest pid

/-- Python dict store: replace the value at an existing key in place,
otherwise append the new key at the end (dicts preserve insertion order). -/
def setA : List (String × PlayerRec) → String → PlayerRec → List (String × PlayerRec)
  | [], pid, v => [(pid, v)]
  | (k, w) :: rest, pid, v =>
    if k = pid then (pid, v) :: rest else (k, w) :: setA rest pid v

/-- The join branch of `_process_log_line`: create the record if absent
(with the current display name), then append the timestamp to `joins`. -/
def addJoin (st : WState) (pid nm : String) (ts : RawTs) : WState :=
  let pe := (lookupA st.playerEvents pid).getD ⟨nm, [], []⟩
  { st with playerEvents := setA st.playerEvents pid { pe with joins := pe.joins ++ [ts] } }

/-- The leave branch of `_process_log_line`: create the record if absent,
then append the timestamp to `leaves`. -/
def addLeave (st : WState) (pid nm : String) (ts : RawTs) : WState :=
  let pe := (lookupA st.playerEvents pid).getD ⟨nm, [], []⟩
  { st with playerEvents := setA st.playerEvents pid { pe with leaves := pe.leaves ++ [ts] } }

/-- `VRChatLogWatcher._process_log_line` on one raw line.
Branch structure mirrors the source: an `"Joining" in line and "Room" in
line` session branch (which records the new instance and clears
`player_events` when both the timestamp regex and an instance pattern
match, without range-validating the timestamp), an `elif` join branch and
an `elif` leave branch (which parse the timestamp with `strptime`, whose
`ValueError` on out-of-range fields is caught by the enclosing handler and
leaves the state unchanged). -/
def processLogLineL (st : WState) (cs : List Char) : WState :=
  if containsSub "Joining".data cs && containsSub "Room".data cs then
    match findTs cs, findInstanceId cs with
    | some _, some iid => { currentInstance := some (String.mk iid), playerEvents := [] }
    | _, _ => st
  else if containsSub "[Behaviour] OnPlayerJoined".data cs then
    match findTs cs, searchPlayerPat "OnPlayerJoined".data cs with
    | some ts, some (nm, pid) =>
      if ts.valid then addJoin st (String.mk pid) (String.mk nm) ts else st
    | _, _ => st
  else if containsSub "[Behaviour] OnPlayerLeft".data cs then
    match findTs cs, searchPlayerPat "OnPlayerLeft".data cs with
    | some ts, some (nm, pid) =>
      if ts.valid then addLeave st (String.mk pid) (String.mk nm) ts else st
    | _, _ => st
  else st

/-- `_process_log_line` on a line given as a string. -/
def processLogLine (st : WState) (line : String) : WState :=
  processLogLineL st line.data

/-- Python `max(...)` over a list of timestamps compared as `datetime`
values: the first element of maximal key (ties between range-valid
timestamps are identical values). -/
def maxByKey : List RawTs → Option RawTs
  | [] => none
  | x :: xs => some (xs.foldl (fun m t => if m.key < t.key then t else m) x)

/-- Player object as built by `get_active_players` (a `SimpleNamespace`
with `id` and `display_name`). -/
structure Player where
  id : String
  display_name : String
deriving DecidableEq, Repr

/-- `VRChatLogWatcher.get_active_players`: iterate `player_events` in
insertion order; a player with strictly more joins than leaves is active,
with the most recent join time. The source returns the player list and the
join-time dictionary side by side; they are modelled as one list of pairs
built in the same iteration. -/
def getActivePlayers (st : WState) : List (Player × RawTs) :=
  st.playerEvents.filterMap fun kv =>
    if kv.2.leaves.length < kv.2.joins.length then
      match maxByKey kv.2.joins with
      | some t => some (⟨kv.1, kv.2.name⟩, t)
      | none => none
    else none

/-- Applying a sequence of raw log lines in order
(exactly what the follow loop does with new lines). -/
def applyLines (st : WState) (lines : List (List Char)) : WState :=
  lines.foldl processLogLineL st

/-- States reachable from a fresh watcher by some sequence of log lines. -/
def ReachableW (st : WState) : Prop :=
  ∃ lines, applyLines initialWState lines = st

/-- Session-change information of a line, exactly as tested by
`_find_current_instance` and the first pass of `_scan_entire_log`:
the line must contain `"Joining"` and `"Room"`, the timestamp regex must
match, and one of the instance patterns must match. -/
def sessionChangeOf (cs : List Char) : Option (RawTs × String) :=
  if containsSub "Joining".data cs && containsSub "Room".data cs then
    match findTs cs, findInstanceId cs with
    | some ts, some iid => some (ts, String.mk iid)
    | _, _ => none
  else none

/-- `VRChatLogWatcher._find_current_instance`: walk the lines in reverse and
return the instance id of the first session-change line found (the last such
line in file order); the timestamp is required to match but its value is not
used. -/
def findCurrentInstance (lines : List (List Char)) : Option String :=
  (lines.reverse).findSome? fun cs => (sessionChangeOf cs).map Prod.snd

/-- First pass of `_scan_entire_log`: collect `(timestamp, instance_id)`
pairs of all session-change lines, in file order. `strptime` on an
out-of-range timestamp raises and aborts the whole scan (`none` here); the
timestamp is stored as its order key. -/
def collectChanges : List (List Char) → List (Nat × String) → Option (List (Nat × String))
  | [], acc => some acc
  | cs :: rest, acc =>
    match sessionChangeOf cs with
    | some (ts, iid) =>
      if ts.valid then collectChanges rest (acc ++ [(ts.key, iid)]) else none
    | none => collectChanges rest acc

/-- Insert into a key-sorted list after all entries with a key less than or
equal to the new entry's key. -/
def insSorted (x : Nat × String) : List (Nat × String) → List (Nat × String)
  | [] => [x]
  | y :: ys => if y.1 ≤ x.1 then y :: insSorted x ys else x :: y :: ys

/-- Python `list.sort(key=lambda x: x[0])`: stable ascending sort by the
timestamp component. Inserting the elements left to right with `insSorted`
places each element after every earlier element with an equal key, which is
exactly the stability guarantee of Python's sort. -/
def stableSortByKey (l : List (Nat × String)) : List (Nat × String) :=
  l.foldl (fun acc x => insSorted x acc) []

/-- Second pass of `_scan_entire_log`: for each line, skip it when the
timestamp regex does not match or the timestamp is strictly before the
chosen instance change, otherwise feed it to `_process_log_line`; an
out-of-range timestamp raises in `strptime` and aborts the rest of the
scan, keeping the state built so far. -/
def secondPass (changeKey : Nat) : WState → List (List Char) → WState
  | st, [] => st
  | st, cs :: rest =>
    match findTs cs with
    | none => secondPass changeKey st rest
    | some ts =>
      if ts.valid then
        if ts.key < changeKey then secondPass changeKey st rest
        else secondPass changeKey (processLogLineL st cs) rest
      else st

/-- `VRChatLogWatcher._scan_entire_log` (backfill): find the current
instance by reverse scan; if found, collect all session changes, stable-sort
them by timestamp, take the last one as the most recent, and replay the
lines from that timestamp on. File-position bookkeeping
(`_position_at_end`) is handled by the callers modelled below. -/
def scanEntireLog (st0 : WState) (lines : List (List Char)) : WState :=
  match findCurrentInstance lines with
  | none => st0
  | some iid0 =>
    let st1 : WState := { st0 with currentInstance := some iid0 }
    match collectChanges lines [] with
    | none => st1
    | some changes =>
      match (stableSortByKey changes).getLast? with
      | none => st1
      | some mostRecent =>
        secondPass mostRecent.1 { st1 with currentInstance := some mostRecent.2 } lines

/-- Split a character stream into lines as Python `readlines` does,
keeping the trailing newline on each line. -/
def splitLinesAux (cur : List Char) : List Char → List (List Char)
  | [] => if cur.isEmpty then [] else [cur.reverse]
  | c :: cs =>
    if c = '\n' then ('\n' :: cur).reverse :: splitLinesAux [] cs
    else splitLinesAux (c :: cur) cs

/-- Python `f.readlines()` on a character stream. -/
def splitLines (cs : List Char) : List (List Char) :=
  splitLinesAux [] cs

/-- View of the watched file at one poll iteration: whether the path exists
and the file contents (its size is the content length). -/
structure FsView where
  pathExists : Bool
  content : List Char

/-- Full watcher state threaded through `_watch_log`:
the read offset `file_position`, the `is_watching` flag and the presence
state mutated by `_process_log_line`. -/
structure WatchSt where
  filePosition : Nat
  isWatching : Bool
  wstate : WState
deriving DecidableEq

/-- One iteration of the `_watch_log` polling loop: re-check that the path
exists, compare the current size against `file_position`, and only when the
file has grown read from the stored offset, process each new line and
advance the offset to the end. -/
def pollStep (fs : FsView) (w : WatchSt) : WatchSt :=
  if fs.pathExists then
    if w.filePosition < fs.content.length then
      let newLines := splitLines (fs.content.drop w.filePosition)
      { w with
        filePosition := fs.content.length
        wstate := applyLines w.wstate newLines }
    else w
  else w

/-- Accessibility of the log file at start time, as the watcher's code can
observe it: the path does not exist (`os.path.exists` is false), the path
exists but every `open()` raises (an unreadable file), or the file can be
read with the given contents. -/
inductive FileAccess where
  | missing
  | unreadable
  | readable (content : List Char)
deriving DecidableEq

/-- `VRChatLogWatcher.start_watching(log_path, scan_existing)`.
Already watching returns `False` at once; a missing path returns `False`.
An existing path is then committed to: for a readable file the log is either
fully scanned (backfill) or the offset positioned at its end, while for an
existing-but-unreadable file every `open()` raises and each raise is
swallowed by the `try/except` blocks of `_scan_entire_log`,
`_find_current_instance` and `_position_at_end`, leaving the offset and the
presence state untouched; in both non-missing cases `is_watching` is set
and the method returns `True`. -/
def startWatching (w : WatchSt) (file : FileAccess) (scanExisting : Bool) :
    Bool × WatchSt :=
  if w.isWatching then (false, w)
  else
    match file with
    | FileAccess.missing => (false, w)
    | FileAccess.unreadable => (true, { w with isWatching := true })
    | FileAccess.readable content =>
      let w1 : WatchSt :=
        if scanExisting then
          { w with
            wstate := scanEntireLog w.wstate (splitLines content)
            filePosition := content.length }
        else { w with filePosition := content.length }
      (true, { w1 with isWatching := true })

/-- `VRChatLogic.start_log_watching(scan_existing)`: when the watcher is
already running, log "already running" and return `True` without touching
the watcher; when `_get_vrchat_log_path` finds no log file, return `False`;
otherwise delegate to `start_watching`. `foundPath` models whether
`_get_vrchat_log_path` succeeds and `file` the accessibility of the file at
the found path. -/
def startLogWatching (w : WatchSt) (foundPath : Bool) (file : FileAccess)
    (scanExisting : Bool) : Bool × WatchSt :=
  if w.isWatching then (true, w)
  else if foundPath then startWatching w file scanExisting
  else (false, w)

/-- Eligibility filter of `VRChatLogic.invite_instance_players_to_group`
(the `filtered_players` loop): drop the current user, existing group
members, players with a pending invite, and players whose time in the
instance is still below `delay`. Join times and the clock are in seconds;
`time_in_instance = current_time - join_time`. -/
def filterPlayers (currentUserId : String) (memberIds pendingInvites : List String)
    (delay : Int) (currentTime : Int) (playersWithTimes : List (Player × Int)) :
    List Player :=
  playersWithTimes.filterMap fun pt =>
    if pt.1.id = currentUserId then none
    else if pt.1.id ∈ memberIds then none
    else if pt.1.id ∈ pendingInvites then none
    else if currentTime - pt.2 < delay then none
    else some pt.1

/-- Outcome of one remote call as observed by the worker: a normal return
value, an `ApiException` with its status code, or any other exception. -/
inductive CallRes (α : Type) where
  | ok (val : α)
  | apiExc (status : Nat)
  | exc
deriving DecidableEq, Repr

/-- Aggregate counters of `_invite_thread_pool`. -/
structure Counts where
  invited : Nat
  failed : Nat
  skipped : Nat
deriving DecidableEq, Repr

/-- The three remote calls a worker may perform for one candidate:
`get_group_member` (value is the truthiness of the returned membership),
`get_group_invites` (`some ids` when the response is truthy and has a
`data` attribute, `none` otherwise) and `create_group_invite`. -/
structure CandCalls where
  member : CallRes Bool
  pendingData : CallRes (Option (List String))
  invite : CallRes Unit
deriving DecidableEq, Repr

/-- Per-candidate body of the worker in `_invite_thread_pool`: the two
re-validation checks, then the invite. Returns the updated counters and
whether `create_group_invite` was called. A truthy membership or a listed
pending invite increments `skipped` and suppresses the invite; a 404 from
the membership check is the expected non-member path and any other
`ApiException` from either check is only logged; a non-`ApiException`
from a check propagates to the outer handler which increments `failed`;
an invite success increments `invited` and any invite failure increments
`failed`. -/
def processCandidate (pid : String) (calls : CandCalls) (c : Counts) : Counts × Bool :=
  match calls.member with
  | .exc => ({ c with failed := c.failed + 1 }, false)
  | .ok true => ({ c with skipped := c.skipped + 1 }, false)
  | _ =>
    match calls.pendingData with
    | .exc => ({ c with failed := c.failed + 1 }, false)
    | .ok (some ids) =>
      if pid ∈ ids then ({ c with skipped := c.skipped + 1 }, false)
      else
        match calls.invite with
        | .ok _ => ({ c with invited := c.invited + 1 }, true)
        | .apiExc _ => ({ c with failed := c.failed + 1 }, true)
        | .exc => ({ c with failed := c.failed + 1 }, true)
    | _ =>
      match calls.invite with
      | .ok _ => ({ c with invited := c.invited + 1 }, true)
      | .apiExc _ => ({ c with failed := c.failed + 1 }, true)
      | .exc => ({ c with failed := c.failed + 1 }, true)

/-- One worker of `_invite_thread_pool`, with the shared `is_inviting` flag
modelled as the stream of values it observes (`flag r` is its `r`-th read)
and the remote calls of the `i`-th processed candidate given by `calls i`.
Per iteration the flag is read in the `while` condition, before
`player_queue.get`, after the get (where a cleared flag makes the worker
put the candidate back and stop), and again before the delay sleep.
The queue is FIFO: get from the front, put at the back. -/
def workerLoop (flag : Nat → Bool) (calls : Nat → CandCalls) (r i : Nat) :
    List String → Counts → List String × Counts
  | [], c => ([], c)
  | p :: rest, c =>
    if !flag r then (p :: rest, c)
    else if !flag (r + 1) then (p :: rest, c)
    else if !flag (r + 2) then (rest ++ [p], c)
    else
      let c1 := (processCandidate p (calls i) c).1
      if !flag (r + 3) then (rest, c1)
      else workerLoop flag calls (r + 4) (i + 1) rest c1

/-- Completion message chosen at the end of `_invite_thread_pool` from the
`is_inviting` flag: a cleared flag means the run was stopped, otherwise it
completed. -/
def completionMessage (isInviting : Bool) (invited total failed skipped : Nat) : String :=
  if !isInviting then
    "Invitation process stopped. Invited " ++ toString invited ++ "/" ++ toString total
      ++ " players. Failed: " ++ toString failed ++ ", Skipped: " ++ toString skipped
  else
    "Invitation process completed. Invited " ++ toString invited ++ "/" ++ toString total
      ++ " players. Failed: " ++ toString failed ++ ", Skipped: " ++ toString skipped

/-- Client-side login state of `VRChatLogic` (the five API handles, the
current user and the `is_logged_in` flag). Handles and user are `none`
when unset. -/
structure ClientState where
  apiClient : Option Unit
  authApi : Option Unit
  groupsApi : Option Unit
  usersApi : Option Unit
  worldsApi : Option Unit
  currentUser : Option String
  isLoggedIn : Bool
deriving DecidableEq, Repr

/-- The state written by the `finally` block of `VRChatLogic.logout`. -/
def loggedOutState : ClientState :=
  { apiClient := none, authApi := none, groupsApi := none, usersApi := none,
    worldsApi := none, currentUser := none, isLoggedIn := false }

/-- `VRChatLogic.logout`: a no-op when not logged in; otherwise the remote
logout call runs inside `try`, any exception is caught and logged, and the
`finally` block resets every handle, the current user and the flag on both
paths. `remoteRaises` says whether the remote call raises. -/
def logout (remoteRaises : Bool) (s : ClientState) : ClientState :=
  if !s.isLoggedIn then s
  else
    match (if remoteRaises then Except.error "logout failed" else Except.ok ()) with
    | Except.ok () => loggedOutState
    | Except.error (_ : String) => loggedOutState

/-- Spec-side notion for the extractor claim: a valid fixed-format timestamp
at the very start of the line ("leading"), range checks included. -/
def hasValidLeadingTs (cs : List Char) : Bool :=
  match matchTsAt cs with
  | some t => t.valid
  | none => false

/-- Spec-side notion: a range-valid fixed-format timestamp anywhere in the
line. -/
def containsValidTsSpec (cs : List Char) : Bool :=
  (List.range (cs.length + 1)).any fun i =>
    match matchTsAt (cs.drop i) with
    | some t => t.valid
    | none => false

/-- Claim C7: the eligible-candidate set equals the present players minus the
acting user's own id, group members, pending invitees and under-dwell players;
each exclusion independently removes a player, and an excluded player never
appears among the candidates handed to the dispatch pool. -/
theorem c7_eligibility (selfId : String) (memberIds pendingInvites : List String)
    (delay now : Int) (pts : List (Player × Int)) :
    (∀ p : Player,
      p ∈ filterPlayers selfId memberIds pendingInvites delay now pts ↔
        ∃ t : Int, (p, t) ∈ pts ∧ p.id ≠ selfId ∧ p.id ∉ memberIds ∧
          p.id ∉ pendingInvites ∧ ¬ now - t < delay) ∧
    (∀ p : Player, p.id = selfId →
      p ∉ filterPlayers selfId memberIds pendingInvites delay now pts) ∧
    (∀ p : Player, p.id ∈ memberIds →
      p ∉ filterPlayers selfId memberIds pendingInvites delay now pts) ∧
    (∀ p : Player, p.id ∈ pendingInvites →
      p ∉ filterPlayers selfId memberIds pendingInvites delay now pts) ∧
    (∀ p : Player, (∀ t : Int, (p, t) ∈ pts → now - t < delay) →
      p ∉ filterPlayers selfId memberIds pendingInvites delay now pts) := by
  have hiff : ∀ p : Player,
      p ∈ filterPlayers selfId memberIds pendingInvites delay now pts ↔
        ∃ t : Int, (p, t) ∈ pts ∧ p.id ≠ selfId ∧ p.id ∉ memberIds ∧
          p.id ∉ pendingInvites ∧ ¬ now - t < delay := by
    intro p
    unfold filterPlayers
    rw [List.mem_filterMap]
    constructor
    · rintro ⟨⟨q, t⟩, hmem, hf⟩
      simp only at hf
      split_ifs at hf with h1 h2 h3 h4
      simp at hf
      subst hf
      exact ⟨t, hmem, h1, h2, h3, h4⟩
    · rintro ⟨t, hmem, h1, h2, h3, h4⟩
      refine ⟨(p, t), hmem, ?_⟩
      simp only
      rw [if_neg h1, if_neg h2, if_neg h3, if_neg h4]
  refine ⟨hiff, ?_, ?_, ?_, ?_⟩
  · intro p hp hmem
    rcases (hiff p).1 hmem with ⟨t, _, h1, _, _, _⟩
    exact h1 hp
  · intro p hp hmem
    rcases (hiff p).1 hmem with ⟨t, _, _, h2, _, _⟩
    exact h2 hp
  · intro p hp hmem
    rcases (hiff p).1 hmem with ⟨t, _, _, _, h3, _⟩
    exact h3 hp
  · intro p hp hmem
    rcases (hiff p).1 hmem with ⟨t, ht, _, _, _, h4⟩
    exact h4 (hp t ht)

/-- Witness for C7 at a concrete input: with present players A, B, C, D, E,
self A, members containing B, pending containing C, and D under the dwell
threshold, E is a candidate and the acting user A is excluded. -/
theorem c7_eligibility_witness :
    Player.mk "usr_e" "E" ∈
      filterPlayers "usr_a" ["usr_b"] ["usr_c"] 5 100
        [(⟨"usr_a", "A"⟩, 0), (⟨"usr_b", "B"⟩, 0), (⟨"usr_c", "C"⟩, 0),
         (⟨"usr_d", "D"⟩, 98), (⟨"usr_e", "E"⟩, 0)] ∧
    Player.mk "usr_a" "A" ∉
      filterPlayers "usr_a" ["usr_b"] ["usr_c"] 5 100
        [(⟨"usr_a", "A"⟩, 0), (⟨"usr_b", "B"⟩, 0), (⟨"usr_c", "C"⟩, 0),
         (⟨"usr_d", "D"⟩, 98), (⟨"usr_e", "E"⟩, 0)] := by
  constructor
  · exact (c7_eligibility "usr_a" ["usr_b"] ["usr_c"] 5 100 _ |>.1 _).2
      ⟨0, by decide, by decide, by decide, by decide, by decide⟩
  · exact (c7_eligibility "usr_a" ["usr_b"] ["usr_c"] 5 100 _ |>.2.1) _ rfl

/-- Claim C10: `logout` on a logged-in client resets every API handle, the
current user and the login flag regardless of whether the remote call raises;
`logout` while not logged in changes nothing. -/
theorem c10_logout_resets (remoteRaises : Bool) (s : ClientState) :
    (s.isLoggedIn = true →
      logout remoteRaises s = loggedOutState ∧
      (logout remoteRaises s).apiClient = none ∧
      (logout remoteRaises s).authApi = none ∧
      (logout remoteRaises s).groupsApi = none ∧
      (logout remoteRaises s).usersApi = none ∧
      (logout remoteRaises s).worldsApi = none ∧
      (logout remoteRaises s).currentUser = none ∧
      (logout remoteRaises s).isLoggedIn = false) ∧
    (s.isLoggedIn = false → logout remoteRaises s = s) := by
  constructor
  · intro h
    have hl : logout remoteRaises s = loggedOutState := by
      unfold logout
      rw [h]
      cases remoteRaises <;> rfl
    exact ⟨hl, by rw [hl]; rfl, by rw [hl]; rfl, by rw [hl]; rfl, by rw [hl]; rfl,
      by rw [hl]; rfl, by rw [hl]; rfl, by rw [hl]; rfl⟩
  · intro h
    unfold logout
    rw [h]
    rfl

/-- Witness for C10 at a concrete logged-in state with a raising remote call,
and at a concrete logged-out state. -/
theorem c10_logout_resets_witness :
    logout true ⟨some (), some (), some (), some (), some (), some "me", true⟩ =
      loggedOutState ∧
    logout false ⟨none, none, none, none, none, none, false⟩ =
      ⟨none, none, none, none, none, none, false⟩ := by
  constructor
  · exact (c10_logout_resets true ⟨some (), some (), some (), some (), some (),
      some "me", true⟩).1 rfl |>.1
  · exact (c10_logout_resets false ⟨none, none, none, none, none, none, false⟩).2 rfl

/-- Claim C5: when the pre-action membership re-check returns an existing
(truthy) membership, the worker increments `skipped`, never calls
`create_group_invite`, and leaves `invited` untouched; hence re-dispatching a
candidate who became a member after a first successful run yields one more
`skipped` and the same `invited`. -/
theorem c5_member_skip :
    (∀ (pid : String) (calls : CandCalls) (c : Counts),
      calls.member = CallRes.ok true →
      processCandidate pid calls c = ({ c with skipped := c.skipped + 1 }, false)) ∧
    (processCandidate "usr_x"
        ⟨CallRes.apiExc 404, CallRes.ok (some []), CallRes.ok ()⟩ ⟨0, 0, 0⟩ =
      (⟨1, 0, 0⟩, true) ∧
     processCandidate "usr_x"
        ⟨CallRes.ok true, CallRes.ok (some []), CallRes.ok ()⟩ ⟨1, 0, 0⟩ =
      (⟨1, 0, 1⟩, false)) := by
  constructor
  · rintro pid ⟨m, pd, inv⟩ c h
    cases h
    rfl
  · exact ⟨rfl, rfl⟩

/-- Witness for C5 at a concrete candidate and counter state. -/
theorem c5_member_skip_witness :
    processCandidate "usr_w"
        ⟨CallRes.ok true, CallRes.apiExc 500, CallRes.exc⟩ ⟨3, 1, 2⟩ =
      (⟨3, 1, 3⟩, false) :=
  c5_member_skip.1 "usr_w" ⟨CallRes.ok true, CallRes.apiExc 500, CallRes.exc⟩
    ⟨3, 1, 2⟩ rfl

/-- Counterexample to claim C9: on an idle watcher, starting against an
existing-but-unreadable log file returns `True` — not the reported-failure
`False` the claim asserts for an unreadable source. Every `open()` failure
is swallowed inside `_scan_entire_log`, `_find_current_instance` and
`_position_at_end`, after which `start_watching` sets `is_watching` and
returns `True`, which `start_log_watching` forwards. -/
theorem c9_counterexample :
    startLogWatching ⟨0, false, initialWState⟩ true FileAccess.unreadable true =
      (true, ⟨0, true, initialWState⟩) ∧
    (startLogWatching ⟨0, false, initialWState⟩ true FileAccess.unreadable true).1
      ≠ false := by
  refine ⟨by decide, by decide⟩

/-- Claim C9, amended: re-starting a running watcher is a no-op reported as
already-running (`start_log_watching` returns `True` and leaves the watcher,
including its read offset and presence data, untouched); a missing log
source — no path found, or the path failing the existence check — is the
reported failure returning `False`, distinct from the already-running
result; an existing-but-unreadable source, however, is not a reported
failure: the open errors are swallowed and start returns `True` with the
watcher marked watching and the rest of its state unchanged. -/
theorem c9_start_results :
    (∀ (w : WatchSt) (foundPath : Bool) (file : FileAccess) (scanExisting : Bool),
      w.isWatching = true →
        startLogWatching w foundPath file scanExisting = (true, w)) ∧
    (∀ (w : WatchSt) (file : FileAccess) (scanExisting : Bool),
      w.isWatching = false →
        startLogWatching w false file scanExisting = (false, w)) ∧
    (∀ (w : WatchSt) (scanExisting : Bool),
      w.isWatching = false →
        startLogWatching w true FileAccess.missing scanExisting = (false, w)) ∧
    (∀ (w : WatchSt) (scanExisting : Bool),
      w.isWatching = false →
        startLogWatching w true FileAccess.unreadable scanExisting =
          (true, { w with isWatching := true })) := by
  refine ⟨?_, ?_, ?_, ?_⟩
  · intro w foundPath file scanExisting h
    unfold startLogWatching
    rw [h]
    rfl
  · intro w file scanExisting h
    unfold startLogWatching
    rw [h]
    rfl
  · intro w scanExisting h
    unfold startLogWatching startWatching
    rw [h]
    rfl
  · intro w scanExisting h
    unfold startLogWatching startWatching
    rw [h]
    rfl

/-- Witness for the amended C9: a running watcher with a scanned state is
left untouched and reported as already running; an idle watcher with no
discoverable log path reports failure; an idle watcher against an
unreadable file starts with only the flag set. -/
theorem c9_start_results_witness :
    startLogWatching ⟨42, true, ⟨some "wrld_w", []⟩⟩ true
        (FileAccess.readable "xyz".data) true =
      (true, ⟨42, true, ⟨some "wrld_w", []⟩⟩) ∧
    startLogWatching ⟨0, false, initialWState⟩ false FileAccess.missing true =
      (false, ⟨0, false, initialWState⟩) ∧
    startLogWatching ⟨7, false, initialWState⟩ true FileAccess.unreadable true =
      (true, ⟨7, true, initialWState⟩) := by
  refine ⟨?_, ?_, ?_⟩
  · exact c9_start_results.1 ⟨42, true, ⟨some "wrld_w", []⟩⟩ true
      (FileAccess.readable "xyz".data) true rfl
  · exact c9_start_results.2.1 ⟨0, false, initialWState⟩ FileAccess.missing true rfl
  · exact c9_start_results.2.2.2 ⟨7, false, initialWState⟩ true rfl

/-- Counterexample to claim C4: the source exists and shrank to 5 characters
below the stored offset 10, yet one poll iteration leaves the state
unchanged: the offset stays 10 (not reset to 0) and the watcher is not
declared stale (the watching flag stays set). -/
theorem c4_counterexample :
    (FsView.mk true "abcde".data).content.length < 10 ∧
    pollStep ⟨true, "abcde".data⟩ ⟨10, true, initialWState⟩ =
      ⟨10, true, initialWState⟩ ∧
    (pollStep ⟨true, "abcde".data⟩ ⟨10, true, initialWState⟩).filePosition ≠ 0 ∧
    (pollStep ⟨true, "abcde".data⟩ ⟨10, true, initialWState⟩).isWatching = true :=
  ⟨by decide, by decide, by decide, by decide⟩

/-- Claim C4, amended: when the source has not grown past the stored offset
(in particular when it shrank), the poll iteration reads nothing and keeps
the offset and all state unchanged, and every poll iteration re-checks
existence first: a missing source also leaves the state unchanged. -/
theorem c4_shrink_keeps_offset :
    (∀ (fs : FsView) (w : WatchSt),
      fs.content.length ≤ w.filePosition → pollStep fs w = w) ∧
    (∀ (fs : FsView) (w : WatchSt),
      fs.pathExists = false → pollStep fs w = w) := by
  constructor
  · intro fs w h
    unfold pollStep
    split_ifs with h1 h2
    · omega
    · rfl
    · rfl
  · intro fs w h
    unfold pollStep
    rw [h]
    rfl

/-- Witness for the amended C4 at the concrete shrink scenario and at a
missing source. -/
theorem c4_shrink_keeps_offset_witness :
    pollStep ⟨true, "abcde".data⟩ ⟨10, true, initialWState⟩ =
      ⟨10, true, initialWState⟩ ∧
    pollStep ⟨false, []⟩ ⟨7, true, initialWState⟩ = ⟨7, true, initialWState⟩ := by
  constructor
  · exact c4_shrink_keeps_offset.1 ⟨true, "abcde".data⟩ ⟨10, true, initialWState⟩
      (by decide)
  · exact c4_shrink_keeps_offset.2 ⟨false, []⟩ ⟨7, true, initialWState⟩ rfl

/-- Counterexample to claim C8: this line has no valid leading timestamp (it
does not even contain a range-valid timestamp anywhere, since month 13 is
rejected by `strptime`), yet processing it records a session change, because
the session branch of `_process_log_line` searches the timestamp anywhere in
the line and never range-validates it. -/
theorem c8_counterexample :
    hasValidLeadingTs "xx 2024.13.01 12:00:00 Joining or Creating Room: wrld_a".data
        = false ∧
    containsValidTsSpec "xx 2024.13.01 12:00:00 Joining or Creating Room: wrld_a".data
        = false ∧
    processLogLineL initialWState
        "xx 2024.13.01 12:00:00 Joining or Creating Room: wrld_a".data ≠
      initialWState ∧
    (processLogLineL initialWState
        "xx 2024.13.01 12:00:00 Joining or Creating Room: wrld_a".data).currentInstance
      = some "wrld_a" := by
  refine ⟨by decide, by decide, by decide, by decide⟩

/-- Claim C8, amended: a line in which the fixed-format timestamp pattern
matches nowhere produces no event at all: `_process_log_line` leaves the
state unchanged (no session change, no join, no leave). -/
theorem c8_no_timestamp_no_event (st : WState) (cs : List Char)
    (h : findTs cs = none) : processLogLineL st cs = st := by
  unfold processLogLineL
  rw [h]
  split_ifs <;> rfl

/-- Witness for the amended C8 on a concrete timestamp-free line. -/
theorem c8_no_timestamp_no_event_witness :
    processLogLineL initialWState
        "Log - [Behaviour] OnPlayerJoined Alice (usr_1)".data = initialWState :=
  c8_no_timestamp_no_event initialWState
    "Log - [Behaviour] OnPlayerJoined Alice (usr_1)".data (by decide)

/-- The running fold of Python `max` returns an element of the inputs and an
upper bound of all their keys. -/
theorem foldMax_spec (xs : List RawTs) : ∀ x : RawTs,
    List.foldl (fun m t => if m.key < t.key then t else m) x xs ∈ x :: xs ∧
    ∀ u ∈ x :: xs,
      u.key ≤ (List.foldl (fun m t => if m.key < t.key then t else m) x xs).key := by
  induction xs with
  | nil =>
    intro x
    refine ⟨List.mem_cons_self x [], ?_⟩
    intro u hu
    rcases List.mem_cons.1 hu with h | h
    · rw [h]
      simp
    · exact absurd h (List.not_mem_nil u)
  | cons y ys ih =>
    intro x
    simp only [List.foldl_cons]
    rcases ih (if x.key < y.key then y else x) with ⟨hmem, hle⟩
    have hhead := hle _ (List.mem_cons_self _ _)
    have h1 : x.key ≤ (if x.key < y.key then y else x).key := by
      split_ifs with hc
      · omega
      · omega
    have h2 : y.key ≤ (if x.key < y.key then y else x).key := by
      split_ifs with hc
      · omega
      · omega
    refine ⟨?_, ?_⟩
    · rcases List.mem_cons.1 hmem with h | h
      · rw [h]
        by_cases hxy : x.key < y.key
        · rw [if_pos hxy]
          exact List.mem_cons_of_mem _ (List.mem_cons_self _ _)
        · rw [if_neg hxy]
          exact List.mem_cons_self _ _
      · exact List.mem_cons_of_mem _ (List.mem_cons_of_mem _ h)
    · intro u hu
      rcases List.mem_cons.1 hu with h | h
      · rw [h]
        exact le_trans h1 hhead
      · rcases List.mem_cons.1 h with h' | h'
        · rw [h']
          exact le_trans h2 hhead
        · exact hle u (List.mem_cons_of_mem _ h')

/-- `maxByKey` returns a maximal element of its input. -/
theorem maxByKey_spec (l : List RawTs) (t : RawTs) (h : maxByKey l = some t) :
    t ∈ l ∧ ∀ u ∈ l, u.key ≤ t.key := by
  cases l with
  | nil => cases h
  | cons x xs =>
    unfold maxByKey at h
    rw [Option.some_inj] at h
    subst h
    exact foldMax_spec xs x

/-- `maxByKey` is defined on every non-empty list. -/
theorem maxByKey_isSome (l : List RawTs) (h : l ≠ []) : (maxByKey l).isSome := by
  cases l with
  | nil => exact absurd rfl h
  | cons x xs => rfl

/-- Claim C2: a tracked user appears in the present-player snapshot iff their
join count strictly exceeds their leave count, and the reported join time is
the most recent of their joins; consequently a join followed by a leave makes
the user absent, while two joins without a leave keep them present with the
later timestamp. -/
theorem c2_presence (st : WState) (pid : String) :
    ((∃ pr ∈ getActivePlayers st, pr.1.id = pid) ↔
      ∃ pe : PlayerRec, (pid, pe) ∈ st.playerEvents ∧
        pe.leaves.length < pe.joins.length) ∧
    (∀ pe : PlayerRec, (pid, pe) ∈ st.playerEvents →
      pe.leaves.length < pe.joins.length →
      ∃ t : RawTs, (⟨pid, pe.name⟩, t) ∈ getActivePlayers st ∧ t ∈ pe.joins ∧
        ∀ u ∈ pe.joins, u.key ≤ t.key) ∧
    (getActivePlayers (applyLines initialWState
        ["2024.01.01 10:01:00 Log - [Behaviour] OnPlayerJoined Alice (usr_1)".data,
         "2024.01.01 10:02:00 Log - [Behaviour] OnPlayerLeft Alice (usr_1)".data])
      = []) ∧
    (getActivePlayers (applyLines initialWState
        ["2024.01.01 10:01:00 Log - [Behaviour] OnPlayerJoined Alice (usr_1)".data,
         "2024.01.01 10:03:00 Log - [Behaviour] OnPlayerJoined Alice (usr_1)".data])
      = [(⟨"usr_1", "Alice"⟩, ⟨2024, 1, 1, 10, 3, 0⟩)]) := by
  refine ⟨?_, ?_, by decide, by decide⟩
  · constructor
    · rintro ⟨pr, hpr, hid⟩
      unfold getActivePlayers at hpr
      rw [List.mem_filterMap] at hpr
      obtain ⟨kv, hkv, hf⟩ := hpr
      split_ifs at hf with hc
      · cases hm : maxByKey kv.2.joins with
        | none => rw [hm] at hf; cases hf
        | some t =>
          rw [hm, Option.some_inj] at hf
          refine ⟨kv.2, ?_, hc⟩
          have : kv.1 = pid := by rw [← hid, ← hf]
          rw [← this]
          exact hkv
    · rintro ⟨pe, hmem, hc⟩
      have hne : pe.joins ≠ [] := by
        intro hnil
        rw [hnil] at hc
        simp at hc
      cases hm : maxByKey pe.joins with
      | none => exact absurd (congrArg Option.isSome hm) (by simp [maxByKey_isSome _ hne])
      | some t =>
        refine ⟨(⟨pid, pe.name⟩, t), ?_, rfl⟩
        unfold getActivePlayers
        rw [List.mem_filterMap]
        exact ⟨(pid, pe), hmem, by rw [if_pos hc, hm]⟩
  · intro pe hmem hc
    have hne : pe.joins ≠ [] := by
      intro hnil
      rw [hnil] at hc
      simp at hc
    cases hm : maxByKey pe.joins with
    | none => exact absurd (congrArg Option.isSome hm) (by simp [maxByKey_isSome _ hne])
    | some t =>
      rcases maxByKey_spec pe.joins t hm with ⟨htm, hub⟩
      refine ⟨t, ?_, htm, hub⟩
      unfold getActivePlayers
      rw [List.mem_filterMap]
      exact ⟨(pid, pe), hmem, by rw [if_pos hc, hm]⟩

/-- Witness for C2: in the two-join state, the user is reported with the
later join time, which bounds both join timestamps. -/
theorem c2_presence_witness :
    ∃ t : RawTs,
      ((⟨"usr_1", "Alice"⟩ : Player), t) ∈
        getActivePlayers
          ⟨none, [("usr_1",
            ⟨"Alice", [⟨2024, 1, 1, 10, 1, 0⟩, ⟨2024, 1, 1, 10, 3, 0⟩], []⟩)]⟩ ∧
      t ∈ [⟨2024, 1, 1, 10, 1, 0⟩, ⟨2024, 1, 1, 10, 3, 0⟩] ∧
      ∀ u ∈ [(⟨2024, 1, 1, 10, 1, 0⟩ : RawTs), ⟨2024, 1, 1, 10, 3, 0⟩],
        u.key ≤ t.key :=
  (c2_presence
      ⟨none, [("usr_1",
        ⟨"Alice", [⟨2024, 1, 1, 10, 1, 0⟩, ⟨2024, 1, 1, 10, 3, 0⟩], []⟩)]⟩
      "usr_1").2.1
    ⟨"Alice", [⟨2024, 1, 1, 10, 1, 0⟩, ⟨2024, 1, 1, 10, 3, 0⟩], []⟩
    (by decide) (by decide)

/-- Keys after a dict store: unchanged when the key was present, appended at
the end otherwise. -/
theorem setA_map_fst (pid : String) (v : PlayerRec) :
    ∀ l : List (String × PlayerRec),
      (setA l pid v).map Prod.fst =
        if pid ∈ l.map Prod.fst then l.map Prod.fst
        else l.map Prod.fst ++ [pid] := by
  intro l
  induction l with
  | nil => simp [setA]
  | cons kv rest ih =>
    obtain ⟨k, w⟩ := kv
    by_cases h : k = pid
    · subst h
      simp [setA]
    · have hne : ¬ pid = k := fun hh => h hh.symm
      simp only [setA, if_neg h, List.map_cons, ih, List.mem_cons, hne, false_or]
      by_cases h2 : pid ∈ rest.map Prod.fst
      · simp [h2]
      · simp [h2]

/-- A join event preserves distinctness of the player-event keys. -/
theorem addJoin_keys_nodup (st : WState) (pid nm : String) (ts : RawTs)
    (h : (st.playerEvents.map Prod.fst).Nodup) :
    (((addJoin st pid nm ts).playerEvents).map Prod.fst).Nodup := by
  unfold addJoin
  simp only
  rw [setA_map_fst]
  split_ifs with hmem
  · exact h
  · rw [List.nodup_append]
    refine ⟨h, List.nodup_singleton pid, ?_⟩
    intro a ha hb
    rw [List.mem_singleton] at hb
    subst hb
    exact hmem ha

/-- A leave event preserves distinctness of the player-event keys. -/
theorem addLeave_keys_nodup (st : WState) (pid nm : String) (ts : RawTs)
    (h : (st.playerEvents.map Prod.fst).Nodup) :
    (((addLeave st pid nm ts).playerEvents).map Prod.fst).Nodup := by
  unfold addLeave
  simp only
  rw [setA_map_fst]
  split_ifs with hmem
  · exact h
  · rw [List.nodup_append]
    refine ⟨h, List.nodup_singleton pid, ?_⟩
    intro a ha hb
    rw [List.mem_singleton] at hb
    subst hb
    exact hmem ha

/-- Processing any line preserves distinctness of the player-event keys. -/
theorem processLogLineL_keys_nodup (st : WState) (cs : List Char)
    (h : (st.playerEvents.map Prod.fst).Nodup) :
    (((processLogLineL st cs).playerEvents).map Prod.fst).Nodup := by
  unfold processLogLineL
  split_ifs
  · split
    · simp
    · exact h
  · split
    · split_ifs with hv
      · exact addJoin_keys_nodup _ _ _ _ h
      · exact h
    · exact h
  · split
    · split_ifs with hv
      · exact addLeave_keys_nodup _ _ _ _ h
      · exact h
    · exact h
  · exact h

/-- Any line sequence preserves distinctness of the player-event keys. -/
theorem applyLines_keys_nodup (lines : List (List Char)) : ∀ st : WState,
    (st.playerEvents.map Prod.fst).Nodup →
    (((applyLines st lines).playerEvents).map Prod.fst).Nodup := by
  induction lines with
  | nil => intro st h; exact h
  | cons cs rest ih =>
    intro st h
    unfold applyLines
    rw [List.foldl_cons]
    exact ih (processLogLineL st cs) (processLogLineL_keys_nodup st cs h)

/-- In a list with distinct keys, two entries with the same key coincide. -/
theorem mem_eq_of_keys_nodup : ∀ {l : List (String × PlayerRec)},
    (l.map Prod.fst).Nodup → ∀ {x y : String × PlayerRec},
    x ∈ l → y ∈ l → x.1 = y.1 → x = y := by
  intro l
  induction l with
  | nil =>
    intro _ x y hx _ _
    exact absurd hx (List.not_mem_nil x)
  | cons a rest ih =>
    intro h x y hx hy hk
    rw [List.map_cons, List.nodup_cons] at h
    rcases List.mem_cons.1 hx with hx1 | hx1 <;> rcases List.mem_cons.1 hy with hy1 | hy1
    · rw [hx1, hy1]
    · subst hx1
      exact absurd (hk ▸ List.mem_map_of_mem Prod.fst hy1) h.1
    · subst hy1
      exact absurd (hk ▸ List.mem_map_of_mem Prod.fst hx1) h.1
    · exact ih h.2 hx1 hy1 hk

/-- Counterexample to claim C3: a single leave line with no preceding join
reaches a state whose record for the user has one leave and zero joins, so
the leaves sequence is strictly longer than the joins sequence. -/
theorem c3_counterexample :
    ReachableW (applyLines initialWState
      ["2024.01.01 10:00:00 Log - [Behaviour] OnPlayerLeft Alice (usr_1)".data]) ∧
    ("usr_1", (⟨"Alice", [], [⟨2024, 1, 1, 10, 0, 0⟩]⟩ : PlayerRec)) ∈
      (applyLines initialWState
        ["2024.01.01 10:00:00 Log - [Behaviour] OnPlayerLeft Alice (usr_1)".data]).playerEvents ∧
    (⟨"Alice", [], [⟨2024, 1, 1, 10, 0, 0⟩]⟩ : PlayerRec).joins.length <
      (⟨"Alice", [], [⟨2024, 1, 1, 10, 0, 0⟩]⟩ : PlayerRec).leaves.length :=
  ⟨⟨["2024.01.01 10:00:00 Log - [Behaviour] OnPlayerLeft Alice (usr_1)".data], rfl⟩,
    by decide, by decide⟩

/-- Claim C3, amended: a user's leaves sequence may be longer than their
joins sequence (a leave with no matching join is still recorded), but in
every reachable state a record whose joins do not outnumber its leaves
contributes no player to the present-player snapshot: presence is determined
purely by join count exceeding leave count. -/
theorem c3_leave_only_absent (st : WState) (h : ReachableW st) :
    ∀ kv ∈ st.playerEvents, kv.2.joins.length ≤ kv.2.leaves.length →
      ∀ pr ∈ getActivePlayers st, pr.1.id ≠ kv.1 := by
  intro kv hkv hle pr hpr hid
  obtain ⟨lines, rfl⟩ := h
  have hnd := applyLines_keys_nodup lines initialWState (by simp [initialWState])
  unfold getActivePlayers at hpr
  rw [List.mem_filterMap] at hpr
  obtain ⟨kv2, hkv2, hf⟩ := hpr
  split_ifs at hf with hc
  cases hm : maxByKey kv2.2.joins with
  | none => rw [hm] at hf; cases hf
  | some t =>
    rw [hm, Option.some_inj] at hf
    have hk : kv2.1 = kv.1 := by rw [← hid, ← hf]
    have := mem_eq_of_keys_nodup hnd hkv2 hkv hk
    rw [this] at hc
    omega

/-- Witness for the amended C3: after a stray leave for one user and a join
of another, the only snapshot entry is for the other user, whose id differs
from the leave-only record's key. -/
theorem c3_leave_only_absent_witness :
    ((⟨"usr_2", "Bob"⟩ : Player), (⟨2024, 1, 1, 10, 5, 0⟩ : RawTs)).1.id ≠ "usr_1" :=
  c3_leave_only_absent
    (applyLines initialWState
      ["2024.01.01 10:00:00 Log - [Behaviour] OnPlayerLeft Alice (usr_1)".data,
       "2024.01.01 10:05:00 Log - [Behaviour] OnPlayerJoined Bob (usr_2)".data])
    ⟨["2024.01.01 10:00:00 Log - [Behaviour] OnPlayerLeft Alice (usr_1)".data,
      "2024.01.01 10:05:00 Log - [Behaviour] OnPlayerJoined Bob (usr_2)".data], rfl⟩
    ("usr_1", ⟨"Alice", [], [⟨2024, 1, 1, 10, 0, 0⟩]⟩) (by decide) (by decide)
    ((⟨"usr_2", "Bob"⟩ : Player), (⟨2024, 1, 1, 10, 5, 0⟩ : RawTs)) (by decide)

/-- Claim C6: a worker that has dequeued a candidate and then observes the
cleared cancellation flag at the pre-action checkpoint puts the candidate
back into the queue, processes nothing further and leaves the counters
untouched; and the completion message chosen from a cleared flag reports
"stopped", which is distinct from the "completed" message of a drained run,
whatever the counter values. -/
theorem c6_cancellation :
    (∀ (flag : Nat → Bool) (calls : Nat → CandCalls) (r i : Nat)
        (p : String) (rest : List String) (c : Counts),
      flag r = true → flag (r + 1) = true → flag (r + 2) = false →
      workerLoop flag calls r i (p :: rest) c = (rest ++ [p], c)) ∧
    (∀ invited total failed skipped : Nat,
      (completionMessage false invited total failed skipped).data.take 26 =
        "Invitation process stopped".data ∧
      (completionMessage true invited total failed skipped).data.take 26 =
        "Invitation process complet".data) ∧
    (∀ i1 t1 f1 s1 i2 t2 f2 s2 : Nat,
      completionMessage false i1 t1 f1 s1 ≠ completionMessage true i2 t2 f2 s2) := by
  refine ⟨?_, ?_, ?_⟩
  · intro flag calls r i p rest c h0 h1 h2
    unfold workerLoop
    rw [h0, h1, h2]
    rfl
  · intro invited total failed skipped
    exact ⟨rfl, rfl⟩
  · intro i1 t1 f1 s1 i2 t2 f2 s2 h
    have hp1 : (completionMessage false i1 t1 f1 s1).data.take 26 =
        "Invitation process stopped".data := rfl
    have hp2 : (completionMessage true i2 t2 f2 s2).data.take 26 =
        "Invitation process complet".data := rfl
    rw [h, hp2] at hp1
    exact absurd hp1 (by decide)

/-- Witness for C6: a flag stream that is true for the first two reads and
false at the pre-action read makes the worker return its dequeued candidate
to the back of the queue with counters unchanged. -/
theorem c6_cancellation_witness :
    workerLoop (fun n => decide (n < 2))
        (fun _ => ⟨CallRes.ok false, CallRes.ok none, CallRes.ok ()⟩)
        0 0 ["A", "B"] ⟨0, 0, 0⟩ = (["B", "A"], ⟨0, 0, 0⟩) :=
  c6_cancellation.1 (fun n => decide (n < 2))
    (fun _ => ⟨CallRes.ok false, CallRes.ok none, CallRes.ok ()⟩)
    0 0 "A" ["B"] ⟨0, 0, 0⟩ (by decide) (by decide) (by decide)

/-- One step of the direct "latest maximum" fold: keep the later element on
equal keys. -/
def lastMaxStep : Option (Nat × String) → Nat × String → Option (Nat × String)
  | none, x => some x
  | some m, x => if m.1 ≤ x.1 then some x else some m

/-- `insSorted` never yields the empty list. -/
theorem insSorted_ne_nil (x : Nat × String) : ∀ l : List (Nat × String),
    insSorted x l ≠ [] := by
  intro l
  cases l with
  | nil => simp [insSorted]
  | cons y ys =>
    unfold insSorted
    split_ifs <;> simp

/-- Membership in an `insSorted` list. -/
theorem mem_insSorted (x a : Nat × String) : ∀ l : List (Nat × String),
    a ∈ insSorted x l ↔ a = x ∨ a ∈ l := by
  intro l
  induction l with
  | nil => simp [insSorted]
  | cons y ys ih =>
    unfold insSorted
    split_ifs with h
    · rw [List.mem_cons, ih, List.mem_cons]
      tauto
    · simp [List.mem_cons]

/-- `insSorted` preserves sortedness by key. -/
theorem insSorted_pairwise (x : Nat × String) : ∀ l : List (Nat × String),
    List.Pairwise (fun a b : Nat × String => a.1 ≤ b.1) l →
    List.Pairwise (fun a b : Nat × String => a.1 ≤ b.1) (insSorted x l) := by
  intro l
  induction l with
  | nil => intro _; simp [insSorted]
  | cons y ys ih =>
    intro h
    rw [List.pairwise_cons] at h
    unfold insSorted
    split_ifs with hxy
    · rw [List.pairwise_cons]
      refine ⟨?_, ih h.2⟩
      intro b hb
      rcases (mem_insSorted x b ys).1 hb with hb1 | hb1
      · rw [hb1]; exact hxy
      · exact h.1 b hb1
    · rw [List.pairwise_cons]
      refine ⟨?_, List.pairwise_cons.2 h⟩
      intro b hb
      rcases List.mem_cons.1 hb with hb1 | hb1
      · rw [hb1]; omega
      · exact le_trans (by omega) (h.1 b hb1)

/-- The last element of a list is a member of it. -/
theorem getLastQ_mem : ∀ {l : List (Nat × String)} {a : Nat × String},
    l.getLast? = some a → a ∈ l := by
  intro l
  induction l with
  | nil => intro a ha; cases ha
  | cons y ys ih =>
    intro a ha
    cases ys with
    | nil =>
      rw [List.getLast?_singleton, Option.some_inj] at ha
      rw [ha]
      exact List.mem_cons_self _ _
    | cons w ws =>
      rw [List.getLast?_cons_cons] at ha
      exact List.mem_cons_of_mem _ (ih ha)

/-- On a sorted list, inserting and taking the last element agrees with one
step of the latest-maximum fold. -/
theorem insSorted_getLast (x : Nat × String) : ∀ l : List (Nat × String),
    List.Pairwise (fun a b : Nat × String => a.1 ≤ b.1) l →
    (insSorted x l).getLast? = lastMaxStep l.getLast? x := by
  intro l
  induction l with
  | nil => intro _; rfl
  | cons y ys ih =>
    intro h
    rw [List.pairwise_cons] at h
    unfold insSorted
    split_ifs with hxy
    · cases ys with
      | nil =>
        simp [insSorted, lastMaxStep, hxy]
      | cons w ws =>
        have hne := insSorted_ne_nil x (w :: ws)
        obtain ⟨z, zs, hz⟩ : ∃ z zs, insSorted x (w :: ws) = z :: zs := by
          cases hcase : insSorted x (w :: ws) with
          | nil => exact absurd hcase hne
          | cons z zs => exact ⟨z, zs, rfl⟩
        rw [hz, List.getLast?_cons_cons, ← hz, ih h.2, List.getLast?_cons_cons]
    · cases ys with
      | nil =>
        simp only [List.getLast?_cons_cons, List.getLast?_singleton, lastMaxStep]
        rw [if_neg (by omega : ¬ y.1 ≤ x.1)]
      | cons w ws =>
        rw [List.getLast?_cons_cons, List.getLast?_cons_cons]
        cases hm : (w :: ws).getLast? with
        | none => simp at hm
        | some m =>
          have hmem : m ∈ w :: ws := getLastQ_mem hm
          have hym : y.1 ≤ m.1 := h.1 m hmem
          simp only [lastMaxStep]
          rw [if_neg (by omega : ¬ m.1 ≤ x.1)]

/-- The stable insertion fold keeps its accumulator sorted and its last
element tracks the latest-maximum fold. -/
theorem sortAux_spec (l : List (Nat × String)) : ∀ acc : List (Nat × String),
    List.Pairwise (fun a b : Nat × String => a.1 ≤ b.1) acc →
    List.Pairwise (fun a b : Nat × String => a.1 ≤ b.1)
      (l.foldl (fun acc x => insSorted x acc) acc) ∧
    (l.foldl (fun acc x => insSorted x acc) acc).getLast? =
      l.foldl lastMaxStep acc.getLast? := by
  induction l with
  | nil => intro acc h; exact ⟨h, rfl⟩
  | cons x xs ih =>
    intro acc h
    rw [List.foldl_cons, List.foldl_cons]
    rcases ih (insSorted x acc) (insSorted_pairwise x acc h) with ⟨hs, hl⟩
    refine ⟨hs, ?_⟩
    rw [hl, insSorted_getLast x acc h]

/-- The latest-maximum fold started from a defined value stays defined. -/
theorem lastMaxFold_isSome (l : List (Nat × String)) :
    ∀ o : Option (Nat × String), o.isSome →
      (l.foldl lastMaxStep o).isSome := by
  induction l with
  | nil => intro o h; exact h
  | cons x xs ih =>
    intro o h
    rw [List.foldl_cons]
    cases o with
    | none => cases h
    | some m =>
      apply ih
      simp only [lastMaxStep]
      split_ifs <;> rfl

/-- The latest-maximum fold is `none` only on the empty list. -/
theorem lastMaxFold_none (l : List (Nat × String))
    (h : l.foldl lastMaxStep none = none) : l = [] := by
  cases l with
  | nil => rfl
  | cons x xs =>
    rw [List.foldl_cons] at h
    have := lastMaxFold_isSome xs (lastMaxStep none x) rfl
    rw [h] at this
    cases this

/-- The latest-maximum fold returns the last element of maximal key: it is a
member, an upper bound of all keys, and everything after it has a strictly
smaller key. -/
theorem lastMaxFold_spec (l : List (Nat × String)) : ∀ c : Nat × String,
    l.foldl lastMaxStep none = some c →
    c ∈ l ∧ (∀ x ∈ l, x.1 ≤ c.1) ∧
    ∃ pre post, l = pre ++ c :: post ∧ ∀ x ∈ post, x.1 < c.1 := by
  induction l using List.reverseRecOn with
  | nil => intro c hc; cases hc
  | append_singleton l x ih =>
    intro c hc
    rw [List.foldl_append, List.foldl_cons, List.foldl_nil] at hc
    cases hm : l.foldl lastMaxStep none with
    | none =>
      rw [hm] at hc
      have hl := lastMaxFold_none l hm
      subst hl
      simp only [lastMaxStep] at hc
      rw [Option.some_inj] at hc
      subst hc
      refine ⟨by simp, by simp, [], [], by simp, by simp⟩
    | some m =>
      rw [hm] at hc
      rcases ih m hm with ⟨hmem, hub, pre, post, hdec, hlt⟩
      simp only [lastMaxStep] at hc
      split_ifs at hc with hmx
      · rw [Option.some_inj] at hc
        subst hc
        refine ⟨List.mem_append.2 (Or.inr (List.mem_cons_self _ _)), ?_, l, [], rfl, by simp⟩
        intro u hu
        rcases List.mem_append.1 hu with hu1 | hu1
        · exact le_trans (hub u hu1) hmx
        · rw [List.mem_singleton] at hu1
          rw [hu1]
      · rw [Option.some_inj] at hc
        subst hc
        refine ⟨List.mem_append.2 (Or.inl hmem), ?_, pre, post ++ [x], ?_, ?_⟩
        · intro u hu
          rcases List.mem_append.1 hu with hu1 | hu1
          · exact hub u hu1
          · rw [List.mem_singleton] at hu1
            rw [hu1]
            omega
        · rw [hdec]
          simp
        · intro u hu
          rcases List.mem_append.1 hu with hu1 | hu1
          · exact hlt u hu1
          · rw [List.mem_singleton] at hu1
            rw [hu1]
            omega

/-- The second pass of the backfill scan applies, in order, exactly the
lines whose (range-valid) timestamp is at or after the chosen change time,
provided every timestamp occurring in the lines is range-valid. -/
theorem secondPass_filter (changeKey : Nat) : ∀ (lines : List (List Char)) (st : WState),
    (∀ cs ∈ lines, ∀ t : RawTs, findTs cs = some t → t.valid = true) →
    secondPass changeKey st lines =
      applyLines st (lines.filter fun cs =>
        match findTs cs with
        | some t => decide (changeKey ≤ t.key)
        | none => false) := by
  intro lines
  induction lines with
  | nil => intro st _; rfl
  | cons cs rest ih =>
    intro st h
    have hrest : ∀ cs2 ∈ rest, ∀ t : RawTs, findTs cs2 = some t → t.valid = true :=
      fun cs2 hm => h cs2 (List.mem_cons_of_mem _ hm)
    unfold secondPass
    rw [List.filter_cons]
    cases hft : findTs cs with
    | none =>
      simp only [hft]
      rw [if_neg (by simp)]
      exact ih st hrest
    | some t =>
      have hv : t.valid = true := h cs (List.mem_cons_self _ _) t hft
      simp only [hft, hv, if_true]
      by_cases hk : t.key < changeKey
      · rw [if_pos hk, if_neg (by simpa using hk)]
        exact ih st hrest
      · rw [if_neg hk, if_pos (by simpa using hk)]
        rw [ih (processLogLineL st cs) hrest]
        rfl

/-- Claim C1: backfill finds the most recent session change by timestamp
(last-wins among equal timestamps), discards every event timestamped
strictly before it, and applies the rest in order; on the four-line log
`[SessionChanged S1 @t0, UserEntered U1 @t1, SessionChanged S2 @t2,
UserEntered U2 @t3]` the resulting snapshot is for session S2 and contains
only U2. -/
theorem c1_backfill :
    (scanEntireLog initialWState
        ["2024.01.01 10:00:00 Log - [Behaviour] Joining or Creating Room: wrld_S1".data,
         "2024.01.01 10:01:00 Log - [Behaviour] OnPlayerJoined Alice (usr_1)".data,
         "2024.01.01 10:02:00 Log - [Behaviour] Joining or Creating Room: wrld_S2".data,
         "2024.01.01 10:03:00 Log - [Behaviour] OnPlayerJoined Bob (usr_2)".data] =
      ⟨some "wrld_S2", [("usr_2", ⟨"Bob", [⟨2024, 1, 1, 10, 3, 0⟩], []⟩)]⟩) ∧
    (getActivePlayers (scanEntireLog initialWState
        ["2024.01.01 10:00:00 Log - [Behaviour] Joining or Creating Room: wrld_S1".data,
         "2024.01.01 10:01:00 Log - [Behaviour] OnPlayerJoined Alice (usr_1)".data,
         "2024.01.01 10:02:00 Log - [Behaviour] Joining or Creating Room: wrld_S2".data,
         "2024.01.01 10:03:00 Log - [Behaviour] OnPlayerJoined Bob (usr_2)".data]) =
      [(⟨"usr_2", "Bob"⟩, ⟨2024, 1, 1, 10, 3, 0⟩)]) ∧
    (∀ (changes : List (Nat × String)) (c : Nat × String),
      (stableSortByKey changes).getLast? = some c →
      c ∈ changes ∧ (∀ x ∈ changes, x.1 ≤ c.1) ∧
      ∃ pre post, changes = pre ++ c :: post ∧ ∀ x ∈ post, x.1 < c.1) ∧
    (∀ (changeKey : Nat) (st : WState) (lines : List (List Char)),
      (∀ cs ∈ lines, ∀ t : RawTs, findTs cs = some t → t.valid = true) →
      secondPass changeKey st lines =
        applyLines st (lines.filter fun cs =>
          match findTs cs with
          | some t => decide (changeKey ≤ t.key)
          | none => false)) := by
  refine ⟨by decide, by decide, ?_, ?_⟩
  · intro changes c hc
    unfold stableSortByKey at hc
    rw [(sortAux_spec changes [] List.Pairwise.nil).2] at hc
    exact lastMaxFold_spec changes c hc
  · intro changeKey st lines h
    exact secondPass_filter changeKey lines st h

/-- Witness for C1: the last-wins choice on a concrete change list with a
tied maximal timestamp, and the discard rule on a concrete line list. -/
theorem c1_backfill_witness :
    (((7 : Nat), "c") ∈ [((5 : Nat), "a"), (7, "b"), (7, "c"), (3, "d")] ∧
      (∀ x ∈ [((5 : Nat), "a"), (7, "b"), (7, "c"), (3, "d")],
        x.1 ≤ (((7 : Nat), "c") : Nat × String).1) ∧
      ∃ pre post,
        [((5 : Nat), "a"), (7, "b"), (7, "c"), (3, "d")] =
          pre ++ ((7 : Nat), "c") :: post ∧
        ∀ x ∈ post, x.1 < (((7 : Nat), "c") : Nat × String).1) ∧
    secondPass 2 initialWState
        ["2024.01.01 10:02:00 Log - [Behaviour] OnPlayerJoined Alice (usr_1)".data] =
      applyLines initialWState
        ((["2024.01.01 10:02:00 Log - [Behaviour] OnPlayerJoined Alice (usr_1)".data]).filter
          fun cs =>
            match findTs cs with
            | some t => decide (2 ≤ t.key)
            | none => false) := by
  constructor
  · exact c1_backfill.2.2.1 [((5 : Nat), "a"), (7, "b"), (7, "c"), (3, "d")]
      ((7 : Nat), "c") (by decide)
  · refine c1_backfill.2.2.2 2 initialWState
      ["2024.01.01 10:02:00 Log - [Behaviour] OnPlayerJoined Alice (usr_1)".data] ?_
    intro cs hcs t hft
    rw [List.mem_singleton] at hcs
    subst hcs
    have he : findTs
        "2024.01.01 10:02:00 Log - [Behaviour] OnPlayerJoined Alice (usr_1)".data =
        some ⟨2024, 1, 1, 10, 2, 0⟩ := by decide
    rw [he, Option.some_inj] at hft
    subst hft
    decide
